import Mathlib

/-!
Verification of the NoteKeep server core: the in-memory storage engine
(`server/storage.ts`, class `MemStorage`) and the authentication / note
route handlers (`server/routes.ts`).  JavaScript `Map`s are embedded as
insertion-ordered association lists keyed by the record's `id` field,
`Date` timestamps as natural numbers, and the random values produced by
`randomUUID()` / `crypto.randomBytes` as explicit parameters.
-/

namespace NoteKeep

/-- Model of the JS `Map` iteration (`Array.from(map.values())`): the list
itself, in insertion order.  `mapGet` is `map.get(k)`. -/
def mapGet {α : Type} (key : α → String) (xs : List α) (k : String) : Option α :=
  xs.find? (fun x => key x == k)

/-- `map.set(k, v)`: replaces the entry at an existing key in place
(JS `Map.set` keeps the original insertion position), otherwise appends. -/
def mapSet {α : Type} (key : α → String) (xs : List α) (k : String) (v : α) : List α :=
  if xs.any (fun x => key x == k) then
    xs.map (fun x => if key x == k then v else x)
  else xs ++ [v]

/-- `map.delete(k)`: removes the entry with key `k` (keys are unique in a
real `Map`, so removing every entry with that key is the same operation). -/
def mapDelete {α : Type} (key : α → String) (xs : List α) (k : String) : List α :=
  xs.filter (fun x => !(key x == k))

/-- Modelled from the spec: bcrypt password hashing (external `bcrypt`
library, not part of this repository).  A hash is determined by the salt
and the hashed password; `bcryptCompare p h` succeeds exactly when `h`
was produced by hashing `p` (with any salt), which is the library's
documented contract (`bcrypt.compare(p, await bcrypt.hash(p, 10))` is
`true`, and comparison against a hash of a different password fails). -/
structure BcryptHash where
  salt : Nat
  hashedOf : String
deriving DecidableEq, Repr

/-- `bcrypt.hash(password, ...)` with an explicit salt parameter. -/
def bcryptHash (salt : Nat) (password : String) : BcryptHash :=
  ⟨salt, password⟩

/-- `bcrypt.compare(password, hash)`. -/
def bcryptCompare (password : String) (h : BcryptHash) : Bool :=
  h.hashedOf == password

/-- `users` table row (shared/schema.ts) as stored by `MemStorage`. -/
structure UserRec where
  id : String
  username : String
  password : BcryptHash
  recoveryKey : String
  encryptionKey : String
  createdAt : Nat
deriving DecidableEq, Repr

/-- `folders` table row (shared/schema.ts) as stored by `MemStorage`. -/
structure Folder where
  id : String
  name : String
  emoji : Option String
  parentId : Option String
  userId : String
  createdAt : Nat
deriving DecidableEq, Repr

/-- `notes` table row (shared/schema.ts) as stored by `MemStorage`.
`wordCount` is stored as a string, exactly as in the schema
(`word_count: text`) and in `createNote` (`.length.toString()`). -/
structure Note where
  id : String
  title : String
  content : String
  encryptedContent : Option String
  isPinned : Bool
  folderId : Option String
  userId : String
  tags : List String
  wordCount : String
  createdAt : Nat
  updatedAt : Nat
deriving DecidableEq, Repr

/-- The three collections of `MemStorage` (`users`, `folders`, `notes`). -/
structure Store where
  users : List UserRec
  folders : List Folder
  notes : List Note
deriving DecidableEq, Repr

/-- Cut a character list at every character satisfying `p` (adjacent or
leading separators produce empty pieces). -/
def splitChars (p : Char → Bool) : List Char → List (List Char)
  | [] => [[]]
  | c :: cs =>
      match splitChars p cs, p c with
      | r, true => [] :: r
      | w :: ws, false => (c :: w) :: ws
      | [], false => [[c]]

/-- `content.split(/\s+/).filter(word => word.length > 0).length`:
the number of whitespace-delimited non-empty tokens.  Splitting at every
single whitespace character and dropping the empty pieces counts the same
tokens as splitting on runs of whitespace. -/
def countWords (content : String) : Nat :=
  ((splitChars (fun c => c.isWhitespace) content.data).filter
    (fun w => !(w.isEmpty))).length

/-- JS `String.prototype.toLowerCase`, character by character. -/
def lowerStr (s : String) : String :=
  String.mk (s.data.map Char.toLower)

/-- The comparator `(a, b) => b.updatedAt.getTime() - a.updatedAt.getTime()`
as an ordering relation: descending by last-modified timestamp. -/
def byUpdatedAtDesc (a b : Note) : Prop :=
  b.updatedAt ≤ a.updatedAt

instance : DecidableRel byUpdatedAtDesc := fun a b =>
  inferInstanceAs (Decidable (b.updatedAt ≤ a.updatedAt))

instance : IsTotal Note byUpdatedAtDesc :=
  ⟨fun a b => Nat.le_total b.updatedAt a.updatedAt⟩

instance : IsTrans Note byUpdatedAtDesc :=
  ⟨fun _ _ _ hab hbc => Nat.le_trans hbc hab⟩

/-- `.sort((a, b) => b.updatedAt.getTime() - a.updatedAt.getTime())`
(a stable sort, descending by `updatedAt`). -/
def sortNotes (l : List Note) : List Note :=
  List.insertionSort byUpdatedAtDesc l

-- User operations (MemStorage)

/-- `MemStorage.getUserByUsername`. -/
def getUserByUsername (users : List UserRec) (username : String) : Option UserRec :=
  users.find? (fun u => u.username == username)

/-- `MemStorage.createUser` (id generated by `randomUUID()` passed
explicitly, `createdAt: new Date()` passed as `now`). -/
def createUser (st : Store) (username : String) (password : BcryptHash)
    (recoveryKey encryptionKey : String) (id : String) (now : Nat) :
    Store × UserRec :=
  let user : UserRec :=
    { id := id, username := username, password := password,
      recoveryKey := recoveryKey, encryptionKey := encryptionKey, createdAt := now }
  ({ st with users := mapSet UserRec.id st.users id user }, user)

/-- `MemStorage.updateUserPassword`. -/
def updateUserPassword (st : Store) (id : String) (password : BcryptHash) : Store :=
  match mapGet UserRec.id st.users id with
  | some user =>
      { st with users := mapSet UserRec.id st.users id { user with password := password } }
  | none => st

-- Folder operations (MemStorage)

/-- `MemStorage.deleteFolder`: deletes the folder entry, then collects
every note whose `folderId` equals the deleted id and deletes each of
those notes by its own id. -/
def deleteFolder (st : Store) (id : String) : Store :=
  let folders := mapDelete Folder.id st.folders id
  let notesToDelete := st.notes.filter (fun n => n.folderId == some id)
  let notes := notesToDelete.foldl (fun acc n => mapDelete Note.id acc n.id) st.notes
  { st with folders := folders, notes := notes }

-- Note read queries (MemStorage)

/-- `MemStorage.getNotesByUserId`. -/
def getNotesByUserId (st : Store) (userId : String) : List Note :=
  sortNotes (st.notes.filter (fun n => n.userId == userId))

/-- `MemStorage.getNotesByFolderId` — note: filters by `folderId` only,
with no user scoping. -/
def getNotesByFolderId (st : Store) (folderId : String) : List Note :=
  sortNotes (st.notes.filter (fun n => n.folderId == some folderId))

/-- `MemStorage.getPinnedNotes`. -/
def getPinnedNotes (st : Store) (userId : String) : List Note :=
  sortNotes (st.notes.filter (fun n => n.userId == userId && n.isPinned))

/-- `needle` occurs in `hay` starting at its head (helper for
substring containment, the JS `String.includes`). -/
def startsWithChars : List Char → List Char → Bool
  | [], _ => true
  | _ :: _, [] => false
  | c :: cs, d :: ds => c == d && startsWithChars cs ds

/-- `hay.includes(needle)` on character lists. -/
def hasSubstringChars (needle : List Char) : List Char → Bool
  | [] => needle.isEmpty
  | d :: ds => startsWithChars needle (d :: ds) || hasSubstringChars needle ds

/-- JS `s.includes(q)`: `q` occurs in `s` as a contiguous substring. -/
def containsSubstring (s q : String) : Bool :=
  hasSubstringChars q.toList s.toList

/-- `MemStorage.searchNotes`: case-insensitive substring match against
title, content, and each tag, restricted to the given user. -/
def searchNotes (st : Store) (userId : String) (query : String) : List Note :=
  let lowercaseQuery := lowerStr query
  sortNotes (st.notes.filter (fun n =>
    n.userId == userId &&
      (containsSubstring (lowerStr n.title) lowercaseQuery ||
       containsSubstring (lowerStr n.content) lowercaseQuery ||
       n.tags.any (fun tag => containsSubstring (lowerStr tag) lowercaseQuery))))

/-- `MemStorage.getNote`. -/
def getNote (st : Store) (id : String) : Option Note :=
  mapGet Note.id st.notes id

-- Note write operations (MemStorage)

/-- The `InsertNote` payload (zod `insertNoteSchema`): `title` and
`content` required strings; `tags`, `isPinned` optional (`none` models
both JS `undefined` and `null`, which `||` treats alike); `folderId`
distinguishes absent/`null` (outer `none` / `some none`) from a string. -/
structure InsertNotePayload where
  title : String
  content : String
  tags : Option (List String)
  isPinned : Option Bool
  folderId : Option (Option String)
deriving DecidableEq, Repr

/-- `insertNote.folderId || null`: `undefined`, `null` and the empty
string are all falsy and give `null`. -/
def folderIdOrNull : Option (Option String) → Option String
  | some (some s) => if s.isEmpty then none else some s
  | _ => none

/-- `MemStorage.createNote` (id from `randomUUID()` and `now = new Date()`
passed explicitly). -/
def createNote (st : Store) (p : InsertNotePayload) (userId : String)
    (id : String) (now : Nat) : Store × Note :=
  let wordCount := toString (countWords p.content)
  let note : Note :=
    { title := p.title,
      content := p.content,
      tags := p.tags.getD [],
      isPinned := p.isPinned.getD false,
      folderId := folderIdOrNull p.folderId,
      userId := userId,
      id := id,
      wordCount := wordCount,
      encryptedContent := none,
      createdAt := now,
      updatedAt := now }
  ({ st with notes := mapSet Note.id st.notes id note }, note)

/-- The `Partial<UpdateNote>` payload: every field optional (`none` is JS
`undefined`, i.e. the field was omitted); `folderId = some v` is a present
field whose value is `v` (possibly `null`). -/
structure UpdateNotePayload where
  title : Option String
  content : Option String
  tags : Option (List String)
  isPinned : Option Bool
  folderId : Option (Option String)
deriving DecidableEq, Repr

/-- The record built inside `MemStorage.updateNote`: each supplied field
replaces the old one (`update.x !== undefined ? update.x : note.x`);
the word count is recomputed only when `update.content` is truthy
(present and non-empty — `update.content ? ... : note.wordCount`);
`updatedAt` is always set to `new Date()`. -/
def applyUpdate (note : Note) (u : UpdateNotePayload) (now : Nat) : Note :=
  let wordCount :=
    match u.content with
    | some c => if c.isEmpty then note.wordCount else toString (countWords c)
    | none => note.wordCount
  { note with
      title := u.title.getD note.title,
      content := u.content.getD note.content,
      tags := u.tags.getD note.tags,
      isPinned := u.isPinned.getD note.isPinned,
      folderId := match u.folderId with
        | some f => f
        | none => note.folderId,
      wordCount := wordCount,
      updatedAt := now }

/-- `MemStorage.updateNote`. -/
def updateNote (st : Store) (id : String) (u : UpdateNotePayload) (now : Nat) :
    Store × Option Note :=
  match mapGet Note.id st.notes id with
  | none => (st, none)
  | some note =>
      let updated := applyUpdate note u now
      ({ st with notes := mapSet Note.id st.notes id updated }, some updated)

/-- `MemStorage.deleteNote`. -/
def deleteNote (st : Store) (id : String) : Store :=
  { st with notes := mapDelete Note.id st.notes id }

-- Route handlers (server/routes.ts).  Random values (`randomUUID()`,
-- `crypto.randomBytes(32).toString(hex)`, the bcrypt salt) and the clock
-- are explicit parameters; session bookkeeping is outside the store.

/-- Outcome of `POST /api/register`. -/
inductive RegisterResult where
  | ok (userId recoveryKey encryptionKey : String)
  | duplicateUsername
deriving DecidableEq, Repr

/-- `POST /api/register`: rejects an existing username (case-sensitive
exact match) before any mutation; otherwise hashes the password, creates
the user and returns the fresh recovery and encryption keys.
(`insertUserSchema` puts no constraint beyond both fields being strings.) -/
def register (st : Store) (username password : String)
    (recoveryKey encryptionKey : String) (salt : Nat) (freshId : String)
    (now : Nat) : Store × RegisterResult :=
  match getUserByUsername st.users username with
  | some _ => (st, .duplicateUsername)
  | none =>
      let hashedPassword := bcryptHash salt password
      let created := createUser st username hashedPassword recoveryKey encryptionKey freshId now
      (created.1, .ok created.2.id recoveryKey encryptionKey)

/-- Outcome of `POST /api/login`. -/
inductive LoginResult where
  | ok (userId encryptionKey : String)
  | invalidCredentials
  | validationError
deriving DecidableEq, Repr

/-- `POST /api/login`: `loginSchema` requires both strings non-empty
(`min(1)`); unknown username and wrong password give the same uniform
failure; success returns the stored encryption key. -/
def login (st : Store) (username password : String) : LoginResult :=
  if username.length < 1 || password.length < 1 then .validationError
  else
    match getUserByUsername st.users username with
    | none => .invalidCredentials
    | some user =>
        if bcryptCompare password user.password then .ok user.id user.encryptionKey
        else .invalidCredentials

/-- Outcome of `POST /api/recover`. -/
inductive RecoverResult where
  | ok (userId encryptionKey : String)
  | invalidRecovery
  | validationError
deriving DecidableEq, Repr

/-- `POST /api/recover`: `recoverySchema` requires username and recovery
key non-empty and the new password of length at least 6; an unknown
username or a recovery key differing from the stored one fails before
any mutation; on an exact match the password hash is replaced. -/
def recover (st : Store) (username recoveryKey newPassword : String)
    (salt : Nat) : Store × RecoverResult :=
  if username.length < 1 || recoveryKey.length < 1 || newPassword.length < 6 then
    (st, .validationError)
  else
    match getUserByUsername st.users username with
    | none => (st, .invalidRecovery)
    | some user =>
        if user.recoveryKey == recoveryKey then
          (updateUserPassword st user.id (bcryptHash salt newPassword),
           .ok user.id user.encryptionKey)
        else (st, .invalidRecovery)

/-- The query string of `GET /api/notes` (`folderId`, `search`, `pinned`;
`none` is an absent parameter). -/
structure NotesQuery where
  search : Option String
  pinned : Option String
  folderId : Option String
deriving DecidableEq, Repr

/-- JS truthiness of an optional query-string value: present and
non-empty. -/
def queryTruthy : Option String → Bool
  | some s => !(s.isEmpty)
  | none => false

/-- `GET /api/notes`: dispatches on the query parameters in source order
(`search`, then `pinned === true`, then `folderId`, else all notes of the
session user).  `callerId` is `req.session.userId`. -/
def apiListNotes (st : Store) (callerId : String) (q : NotesQuery) : List Note :=
  if queryTruthy q.search then searchNotes st callerId (q.search.getD "")
  else if q.pinned == some "true" then getPinnedNotes st callerId
  else if queryTruthy q.folderId then getNotesByFolderId st (q.folderId.getD "")
  else getNotesByUserId st callerId

/-- `POST /api/notes`: the sentinel folder selection `folderId === "none"`
is converted back to `undefined` before the payload reaches the store. -/
def apiCreateNote (st : Store) (body : InsertNotePayload) (callerId : String)
    (freshId : String) (now : Nat) : Store × Note :=
  let noteData :=
    if body.folderId == some (some "none") then { body with folderId := none }
    else body
  createNote st noteData callerId freshId now

/-- `PUT /api/notes/:id`: the sentinel `folderId === "none"` is converted
back to `undefined` (an omitted field) before `updateNote` runs. -/
def apiUpdateNote (st : Store) (id : String) (body : UpdateNotePayload)
    (now : Nat) : Store × Option Note :=
  let body2 :=
    if body.folderId == some (some "none") then { body with folderId := none }
    else body
  updateNote st id body2 now

-- Helper lemmas shared by the claim theorems

/-- Sorting does not change membership. -/
theorem mem_sortNotes {n : Note} {l : List Note} : n ∈ sortNotes l ↔ n ∈ l :=
  (List.perm_insertionSort byUpdatedAtDesc l).mem_iff

/-- The query sort really sorts by `updatedAt` descending. -/
theorem sorted_sortNotes (l : List Note) : List.Sorted byUpdatedAtDesc (sortNotes l) :=
  List.sorted_insertionSort byUpdatedAtDesc l

/-- In a list sorted descending by `updatedAt`, an element strictly newer
than every other element is the head. -/
theorem head?_eq_of_sorted_max {l : List Note} {x : Note}
    (hs : List.Sorted byUpdatedAtDesc l) (hx : x ∈ l)
    (hmax : ∀ y ∈ l, y = x ∨ y.updatedAt < x.updatedAt) : l.head? = some x := by
  cases l with
  | nil => cases hx
  | cons h t =>
      rcases hmax h (List.mem_cons_self h t) with rfl | hlt
      · rfl
      · rcases List.mem_cons.mp hx with rfl | hxt
        · exact absurd hlt (lt_irrefl _)
        · have hrel : byUpdatedAtDesc h x := List.rel_of_sorted_cons hs x hxt
          exact absurd (Nat.lt_of_le_of_lt hrel hlt) (lt_irrefl _)

/-- Deleting the keys of `ys` one by one filters out every element whose
key occurs in `ys`. -/
theorem foldl_mapDelete_eq (ys xs : List Note) :
    ys.foldl (fun acc n => mapDelete Note.id acc n.id) xs
      = xs.filter (fun m => !(ys.any (fun n => m.id == n.id))) := by
  induction ys generalizing xs with
  | nil => simp
  | cons n ns ih =>
      rw [List.foldl_cons, ih, mapDelete, List.filter_filter]
      refine List.filter_congr (fun m _ => ?_)
      rw [List.any_cons, Bool.not_or, Bool.and_comm]

/-- When note ids are unique (as they are in a JS `Map`), the cascade in
`deleteFolder` removes exactly the notes whose `folderId` is the deleted
folder id. -/
theorem deleteFolder_notes_eq (st : Store) (fid : String)
    (hids : (st.notes.map Note.id).Nodup) :
    (deleteFolder st fid).notes
      = st.notes.filter (fun n => !(n.folderId == some fid)) := by
  have hrfl : (deleteFolder st fid).notes
      = (st.notes.filter (fun n => n.folderId == some fid)).foldl
          (fun acc n => mapDelete Note.id acc n.id) st.notes := rfl
  rw [hrfl, foldl_mapDelete_eq]
  refine List.filter_congr (fun m hm => ?_)
  congr 1
  by_cases hp : m.folderId = some fid
  · have hmem : m ∈ st.notes.filter (fun n => n.folderId == some fid) :=
      List.mem_filter.mpr ⟨hm, by simp [hp]⟩
    rw [show (m.folderId == some fid) = true by simp [hp]]
    exact List.any_eq_true.mpr ⟨m, hmem, beq_self_eq_true m.id⟩
  · rw [show (m.folderId == some fid) = false by simp [hp]]
    refine List.any_eq_false.mpr (fun y hy hbeq => ?_)
    rcases List.mem_filter.mp hy with ⟨hy2, hyfid⟩
    have hid : m.id = y.id := beq_iff_eq.mp hbeq
    have : m = y := List.inj_on_of_nodup_map hids hm hy2 hid
    exact hp (this ▸ beq_iff_eq.mp hyfid)

/-- `map.set` at a key that is present replaces the entry in place. -/
theorem mapSet_of_found {α : Type} (key : α → String) (xs : List α)
    (k : String) (v w : α) (h : xs.find? (fun x => key x == k) = some w) :
    mapSet key xs k v = xs.map (fun x => if key x == k then v else x) := by
  have hpw : (key w == k) = true := by
    have h2 := List.find?_some h
    exact h2
  have hany : xs.any (fun x => key x == k) = true :=
    List.any_eq_true.mpr ⟨w, List.mem_of_find?_eq_some h, hpw⟩
  simp [mapSet, hany]

/-- `map.set` at an absent key appends the entry. -/
theorem mapSet_of_fresh {α : Type} (key : α → String) (xs : List α)
    (k : String) (v : α) (h : ∀ x ∈ xs, key x ≠ k) :
    mapSet key xs k v = xs ++ [v] := by
  have hany : xs.any (fun x => key x == k) = false :=
    List.any_eq_false.mpr (fun x hx hbeq => h x hx (beq_iff_eq.mp hbeq))
  simp [mapSet, hany]

-- Concrete sample data used by counterexamples and witnesses

/-- A note owned by user `u2`, stored in `u2`'s folder `f2`. -/
def noteU2 : Note :=
  { id := "n2", title := "Quarterly Roadmap", content := "plan details here",
    encryptedContent := none, isPinned := false, folderId := some "f2",
    userId := "u2", tags := ["work"], wordCount := "3", createdAt := 0, updatedAt := 4 }

/-- `u2`'s folder `f2`. -/
def folderF2 : Folder :=
  { id := "f2", name := "Work", emoji := none, parentId := none,
    userId := "u2", createdAt := 0 }

/-- Store with a single note, owned by `u2`, in `u2`'s folder `f2`. -/
def crossStore : Store :=
  { users := [], folders := [folderF2], notes := [noteU2] }

/-- A note owned by `u1` with two-word content and stored word count "2". -/
def sampleNote : Note :=
  { id := "n1", title := "Alpha Plan", content := "hello world",
    encryptedContent := none, isPinned := true, folderId := some "f1",
    userId := "u1", tags := ["alpha-2"], wordCount := "2", createdAt := 0, updatedAt := 3 }

/-- Store with `sampleNote` and its folder `f1`. -/
def sampleStore : Store :=
  { users := [], folders := [⟨"f1", "Inbox", none, none, "u1", 0⟩], notes := [sampleNote] }

/-- A note whose `folderId` references the id "ghost" of a folder that
does not exist (no write-time referential-integrity check prevents this). -/
def ghostNote : Note :=
  { id := "g1", title := "Orphan", content := "dangling ref",
    encryptedContent := none, isPinned := false, folderId := some "ghost",
    userId := "u1", tags := [], wordCount := "2", createdAt := 0, updatedAt := 1 }

/-- Store containing `ghostNote` and no folders at all. -/
def ghostStore : Store := { users := [], folders := [], notes := [ghostNote] }

/-- A registered user record. -/
def aliceRec : UserRec :=
  { id := "u1", username := "alice", password := bcryptHash 3 "hunter2",
    recoveryKey := "rk-alice", encryptionKey := "ek-alice", createdAt := 0 }

/-- Store whose only user is `aliceRec`. -/
def authStore : Store := { users := [aliceRec], folders := [], notes := [] }

-- Claim theorems

/-- C1: the ownership claim fails in the code.  `GET /api/notes?folderId=f2`
dispatches to `MemStorage.getNotesByFolderId`, which filters by `folderId`
only, with no user scoping: caller `u1` requesting folder `f2` (owned by
`u2`) receives `u2`'s note, a note whose owning user differs from the
calling user. -/
theorem apiListNotes_byFolder_crosses_owner :
    (apiListNotes crossStore "u1" ⟨none, none, some "f2"⟩).map Note.userId = ["u2"] ∧
    ("u2" : String) ≠ "u1" := by
  constructor
  · rfl
  · decide

/-- C2 counterexample: updating note `n1` (stored word count "2") with
`content = ""` stores the empty content but keeps the stale word count
"2", even though the new content has 0 whitespace-delimited tokens: the
truthiness test `update.content ? ... : note.wordCount` treats the empty
string like an omitted field for the recomputation. -/
theorem updateNote_empty_content_keeps_stale_wordCount :
    ((updateNote sampleStore "n1" ⟨none, some "", none, none, none⟩ 9).2.map Note.content
        = some "") ∧
    ((updateNote sampleStore "n1" ⟨none, some "", none, none, none⟩ 9).2.map Note.wordCount
        = some "2") ∧
    toString (countWords "") = "0" ∧ ("2" : String) ≠ "0" := by
  refine ⟨rfl, rfl, by decide, by decide⟩

/-- C2 (amended): for an existing note, `updateNote` leaves every omitted
field unchanged, always refreshes `updatedAt`, and recomputes the stored
word count from a supplied content exactly when that content is non-empty;
supplying the empty string updates the content but keeps the previous word
count.  (A tags-only update therefore leaves title, content and word count
unchanged while advancing `updatedAt`.) -/
theorem updateNote_partial_update (st : Store) (id : String)
    (u : UpdateNotePayload) (now : Nat) (note : Note)
    (h : getNote st id = some note) :
    ∃ res, (updateNote st id u now).2 = some res ∧
      res.updatedAt = now ∧
      (u.title = none → res.title = note.title) ∧
      (∀ t, u.title = some t → res.title = t) ∧
      (u.content = none → res.content = note.content ∧ res.wordCount = note.wordCount) ∧
      (∀ c, u.content = some c → res.content = c) ∧
      (∀ c, u.content = some c → c ≠ "" → res.wordCount = toString (countWords c)) ∧
      (u.content = some "" → res.wordCount = note.wordCount) ∧
      (u.tags = none → res.tags = note.tags) ∧
      (∀ ts, u.tags = some ts → res.tags = ts) ∧
      (u.isPinned = none → res.isPinned = note.isPinned) ∧
      (u.folderId = none → res.folderId = note.folderId) ∧
      res.id = note.id ∧ res.userId = note.userId ∧
      res.createdAt = note.createdAt ∧ res.encryptedContent = note.encryptedContent := by
  have h2 : mapGet Note.id st.notes id = some note := h
  refine ⟨applyUpdate note u now, by simp [updateNote, h2], by simp [applyUpdate],
    ?_, ?_, ?_, ?_, ?_, ?_, ?_, ?_, ?_, ?_, ?_, ?_, ?_, ?_⟩
  · intro ht; simp [applyUpdate, ht]
  · intro t ht; simp [applyUpdate, ht]
  · intro hc; exact ⟨by simp [applyUpdate, hc], by simp [applyUpdate, hc]⟩
  · intro c hc; simp [applyUpdate, hc]
  · intro c hc hne
    have hie : c.isEmpty = false := by
      rw [Bool.eq_false_iff]
      intro hce
      exact hne ((String.isEmpty_iff c).mp hce)
    simp [applyUpdate, hc, hie]
  · intro hc; simp [applyUpdate, hc, show ("" : String).isEmpty = true from rfl]
  · intro ht; simp [applyUpdate, ht]
  · intro ts ht; simp [applyUpdate, ht]
  · intro hp; simp [applyUpdate, hp]
  · intro hf; simp [applyUpdate, hf]
  · simp [applyUpdate]
  · simp [applyUpdate]
  · simp [applyUpdate]
  · simp [applyUpdate]

/-- Witness for C2 (amended): a tags-only update of `sampleNote` keeps
title, content and word count and sets `updatedAt` to the new time. -/
theorem updateNote_partial_update_witness :
    ∃ res, (updateNote sampleStore "n1" ⟨none, none, some ["x"], none, none⟩ 7).2
        = some res ∧
      res.title = sampleNote.title ∧ res.content = sampleNote.content ∧
      res.wordCount = sampleNote.wordCount ∧ res.tags = ["x"] ∧
      res.updatedAt = 7 := by
  obtain ⟨res, h1, hupd, hti, _, hco, _, _, _, _, htg, _, _, _, _, _, _⟩ :=
    updateNote_partial_update sampleStore "n1" ⟨none, none, some ["x"], none, none⟩ 7
      sampleNote rfl
  exact ⟨res, h1, hti rfl, (hco rfl).1, (hco rfl).2, htg ["x"] rfl, hupd⟩

/-- C3 counterexample: no folder with id "ghost" exists in `ghostStore`,
yet `deleteFolder "ghost"` removes the note `g1` (whose dangling
`folderId` equals "ghost"), so another record is affected. -/
theorem deleteFolder_nonexistent_removes_dangling_note :
    (∀ f ∈ ghostStore.folders, f.id ≠ "ghost") ∧
    ghostNote ∈ ghostStore.notes ∧
    (deleteFolder ghostStore "ghost").notes = [] := by
  refine ⟨by decide, by decide, rfl⟩

/-- C3 (amended): deleting a nonexistent note identifier succeeds and
leaves the store fully unchanged; deleting a nonexistent folder identifier
succeeds and leaves users, every folder, and every note whose `folderId`
differs from that identifier unchanged — but the cascade still removes
any note whose dangling `folderId` equals the deleted identifier
(referential integrity is not enforced at write time). -/
theorem delete_nonexistent_id_effects (st : Store) (nid fid : String)
    (hn : ∀ n ∈ st.notes, n.id ≠ nid)
    (hf : ∀ f ∈ st.folders, f.id ≠ fid)
    (hids : (st.notes.map Note.id).Nodup) :
    deleteNote st nid = st ∧
    (deleteFolder st fid).users = st.users ∧
    (deleteFolder st fid).folders = st.folders ∧
    (deleteFolder st fid).notes = st.notes.filter (fun n => !(n.folderId == some fid)) := by
  refine ⟨?_, rfl, ?_, deleteFolder_notes_eq st fid hids⟩
  · have hl : mapDelete Note.id st.notes nid = st.notes :=
      List.filter_eq_self.mpr (fun n hn2 => by simp [hn n hn2])
    have hd : deleteNote st nid = { st with notes := mapDelete Note.id st.notes nid } := rfl
    rw [hd, hl]
  · have hl : mapDelete Folder.id st.folders fid = st.folders :=
      List.filter_eq_self.mpr (fun f hf2 => by simp [hf f hf2])
    have hd : (deleteFolder st fid).folders = mapDelete Folder.id st.folders fid := rfl
    rw [hd, hl]

/-- Witness for C3 (amended): deleting the unused note id "yy" and the
unused folder id "zz" on `sampleStore`. -/
theorem delete_nonexistent_id_effects_witness :
    deleteNote sampleStore "yy" = sampleStore ∧
    (deleteFolder sampleStore "zz").users = sampleStore.users ∧
    (deleteFolder sampleStore "zz").folders = sampleStore.folders ∧
    (deleteFolder sampleStore "zz").notes
      = sampleStore.notes.filter (fun n => !(n.folderId == some "zz")) :=
  delete_nonexistent_id_effects sampleStore "yy" "zz" (by decide) (by decide) (by decide)

/-- C9: registering a username that already exists (case-sensitive exact
match) fails with `DuplicateUsername` for any password, and the failed
attempt leaves the whole store unchanged. -/
theorem register_duplicate_username (st : Store)
    (username password rk ek freshId : String) (salt now : Nat) (u0 : UserRec)
    (hdup : getUserByUsername st.users username = some u0) :
    (register st username password rk ek salt freshId now).2
        = RegisterResult.duplicateUsername ∧
    (register st username password rk ek salt freshId now).1 = st := by
  constructor <;> simp [register, hdup]

/-- Witness for C9: re-registering "alice" on `authStore`. -/
theorem register_duplicate_username_witness :
    (register authStore "alice" "pw2" "r2" "e2" 4 "u9" 8).2
        = RegisterResult.duplicateUsername ∧
    (register authStore "alice" "pw2" "r2" "e2" 4 "u9" 8).1 = authStore :=
  register_duplicate_username authStore "alice" "pw2" "r2" "e2" "u9" 4 8 aliceRec
    (by decide)

/-- C4: deleting an existing folder removes exactly that folder and
exactly the notes whose `folderId` equals its id; every user, every other
folder (child folders included) and every note whose `folderId` differs
survives, and a surviving note still appears in its owner's subsequent
`ListNotes` result. -/
theorem deleteFolder_cascade (st : Store) (F : Folder)
    (_hmem : F ∈ st.folders) (hids : (st.notes.map Note.id).Nodup) :
    ((deleteFolder st F.id).folders = st.folders.filter (fun f => !(f.id == F.id))) ∧
    (∀ f ∈ st.folders, f.id ≠ F.id → f ∈ (deleteFolder st F.id).folders) ∧
    ((deleteFolder st F.id).notes
        = st.notes.filter (fun n => !(n.folderId == some F.id))) ∧
    ((deleteFolder st F.id).users = st.users) ∧
    (∀ n ∈ st.notes, n.folderId ≠ some F.id →
        n ∈ getNotesByUserId (deleteFolder st F.id) n.userId) := by
  have hnotes := deleteFolder_notes_eq st F.id hids
  refine ⟨rfl, ?_, hnotes, rfl, ?_⟩
  · intro f hf hne
    exact List.mem_filter.mpr ⟨hf, by simp [hne]⟩
  · intro n hn hne
    have h1 : n ∈ (deleteFolder st F.id).notes := by
      rw [hnotes]
      exact List.mem_filter.mpr ⟨hn, by simp [hne]⟩
    exact mem_sortNotes.mpr (List.mem_filter.mpr ⟨h1, beq_self_eq_true n.userId⟩)

/-- Witness for C4: deleting folder `f2` of `crossStore`. -/
theorem deleteFolder_cascade_witness :
    ((deleteFolder crossStore folderF2.id).folders
        = crossStore.folders.filter (fun f => !(f.id == folderF2.id))) ∧
    (∀ f ∈ crossStore.folders, f.id ≠ folderF2.id →
        f ∈ (deleteFolder crossStore folderF2.id).folders) ∧
    ((deleteFolder crossStore folderF2.id).notes
        = crossStore.notes.filter (fun n => !(n.folderId == some folderF2.id))) ∧
    ((deleteFolder crossStore folderF2.id).users = crossStore.users) ∧
    (∀ n ∈ crossStore.notes, n.folderId ≠ some folderF2.id →
        n ∈ getNotesByUserId (deleteFolder crossStore folderF2.id) n.userId) :=
  deleteFolder_cascade crossStore folderF2 (by decide) (by decide)

/-- C6: `searchNotes` returns exactly the notes of the given user whose
lowercased title, lowercased content, or lowercase of at least one tag
contains the lowercased query as a substring. -/
theorem searchNotes_characterization (st : Store) (uid q : String) (n : Note) :
    n ∈ searchNotes st uid q ↔
      (n ∈ st.notes ∧ n.userId = uid ∧
        (containsSubstring (lowerStr n.title) (lowerStr q) = true ∨
         containsSubstring (lowerStr n.content) (lowerStr q) = true ∨
         ∃ t ∈ n.tags, containsSubstring (lowerStr t) (lowerStr q) = true)) := by
  have h1 : searchNotes st uid q = sortNotes (st.notes.filter (fun m =>
      m.userId == uid &&
        (containsSubstring (lowerStr m.title) (lowerStr q) ||
         containsSubstring (lowerStr m.content) (lowerStr q) ||
         m.tags.any (fun tag => containsSubstring (lowerStr tag) (lowerStr q))))) := rfl
  rw [h1, mem_sortNotes, List.mem_filter]
  simp [List.any_eq_true, and_assoc, or_assoc]

/-- C10: on the update route the sentinel `folderId = "none"` is
translated to an omitted field, so an existing note keeps its current
folder assignment, while the create route stores no folder reference for
the same sentinel. -/
theorem folderId_none_sentinel (st : Store) (id : String)
    (body : UpdateNotePayload) (now : Nat) (note : Note)
    (hb : body.folderId = some (some "none"))
    (h : getNote st id = some note) :
    ((apiUpdateNote st id body now).2.map Note.folderId = some note.folderId) ∧
    (∀ cbody : InsertNotePayload, ∀ uid nid t, cbody.folderId = some (some "none") →
        (apiCreateNote st cbody uid nid t).2.folderId = none) := by
  have h2 : mapGet Note.id st.notes id = some note := h
  constructor
  · have hcond : (body.folderId == some (some "none")) = true := by simp [hb]
    simp [apiUpdateNote, hcond, updateNote, h2, applyUpdate]
  · intro cbody uid nid t hcb
    have hcond : (cbody.folderId == some (some "none")) = true := by simp [hcb]
    simp [apiCreateNote, hcond, createNote, folderIdOrNull]

/-- Witness for C10: updating `n1` with the sentinel keeps folder `f1`;
creating with the sentinel stores no folder. -/
theorem folderId_none_sentinel_witness :
    ((apiUpdateNote sampleStore "n1" ⟨none, none, none, none, some (some "none")⟩ 9).2.map
        Note.folderId = some sampleNote.folderId) ∧
    (apiCreateNote sampleStore ⟨"T", "c d", none, none, some (some "none")⟩
        "u1" "n9" 5).2.folderId = none := by
  have h := folderId_none_sentinel sampleStore "n1"
    ⟨none, none, none, none, some (some "none")⟩ 9 sampleNote rfl rfl
  exact ⟨h.1, h.2 ⟨"T", "c d", none, none, some (some "none")⟩ "u1" "n9" 5 rfl⟩

/-- C5: all four read queries return their results ordered by `updatedAt`
descending (most recently touched first), and updating an existing note at
a time strictly later than every other note's `updatedAt` moves the
updated note to the front of the owner's next `ListNotes` result. -/
theorem queries_sorted_update_moves_front (st : Store)
    (uid fid q id : String) (u : UpdateNotePayload) (now : Nat) :
    List.Sorted byUpdatedAtDesc (getNotesByUserId st uid) ∧
    List.Sorted byUpdatedAtDesc (getNotesByFolderId st fid) ∧
    List.Sorted byUpdatedAtDesc (getPinnedNotes st uid) ∧
    List.Sorted byUpdatedAtDesc (searchNotes st uid q) ∧
    (∀ note, getNote st id = some note →
      (∀ m ∈ st.notes, m.id ≠ id → m.updatedAt < now) →
      (getNotesByUserId (updateNote st id u now).1 note.userId).head?
        = some (applyUpdate note u now)) := by
  refine ⟨sorted_sortNotes _, sorted_sortNotes _, sorted_sortNotes _, sorted_sortNotes _, ?_⟩
  intro note hnote hlt
  have h2 : mapGet Note.id st.notes id = some note := hnote
  have hnoteMem : note ∈ st.notes := List.mem_of_find?_eq_some h2
  have hnoteId : (note.id == id) = true := by
    have h3 := List.find?_some h2
    exact h3
  have hstep : updateNote st id u now
      = ({ st with notes := mapSet Note.id st.notes id (applyUpdate note u now) },
         some (applyUpdate note u now)) := by
    unfold updateNote
    rw [h2]
  have hnotes1 : (updateNote st id u now).1.notes
      = st.notes.map (fun m => if m.id == id then applyUpdate note u now else m) := by
    rw [hstep]
    exact mapSet_of_found Note.id st.notes id (applyUpdate note u now) note h2
  have hupdUser : (applyUpdate note u now).userId = note.userId := by
    simp [applyUpdate]
  have hupdTime : (applyUpdate note u now).updatedAt = now := by
    simp [applyUpdate]
  have hmemMap : applyUpdate note u now ∈ (updateNote st id u now).1.notes := by
    rw [hnotes1]
    exact List.mem_map.mpr ⟨note, hnoteMem, by rw [if_pos hnoteId]⟩
  have hmemSort : applyUpdate note u now
      ∈ getNotesByUserId (updateNote st id u now).1 note.userId :=
    mem_sortNotes.mpr (List.mem_filter.mpr
      ⟨hmemMap, by rw [hupdUser]; exact beq_self_eq_true _⟩)
  have hmax : ∀ y ∈ getNotesByUserId (updateNote st id u now).1 note.userId,
      y = applyUpdate note u now ∨ y.updatedAt < (applyUpdate note u now).updatedAt := by
    intro y hy
    have hy2 : y ∈ (updateNote st id u now).1.notes :=
      (List.mem_filter.mp (mem_sortNotes.mp hy)).1
    rw [hnotes1] at hy2
    rcases List.mem_map.mp hy2 with ⟨m, hm, hym⟩
    by_cases hid : (m.id == id) = true
    · left
      rw [← hym, if_pos hid]
    · right
      have hyeq : y = m := by rw [← hym, if_neg hid]
      have hmne : m.id ≠ id := fun hmeq => hid (by simp [hmeq])
      rw [hyeq, hupdTime]
      exact hlt m hm hmne
  exact head?_eq_of_sorted_max (sorted_sortNotes _) hmemSort hmax

/-- Note `a` of user `u1`, last modified at time 1. -/
def noteA : Note :=
  { id := "a", title := "A", content := "one", encryptedContent := none,
    isPinned := false, folderId := none, userId := "u1", tags := [],
    wordCount := "1", createdAt := 0, updatedAt := 1 }

/-- Note `b` of user `u1`, last modified at time 2 (newer than `noteA`). -/
def noteB : Note :=
  { id := "b", title := "B", content := "two", encryptedContent := none,
    isPinned := false, folderId := none, userId := "u1", tags := [],
    wordCount := "1", createdAt := 0, updatedAt := 2 }

/-- Store with the two notes `a` and `b` of user `u1`. -/
def twoNoteStore : Store := { users := [], folders := [], notes := [noteA, noteB] }

/-- Witness for C5: on `twoNoteStore`, `ListNotes` is sorted, and updating
the older note `a` at time 10 puts it at the front of the next listing. -/
theorem queries_sorted_update_moves_front_witness :
    List.Sorted byUpdatedAtDesc (getNotesByUserId twoNoteStore "u1") ∧
    (getNotesByUserId
        (updateNote twoNoteStore "a" ⟨some "A2", none, none, none, none⟩ 10).1
        noteA.userId).head?
      = some (applyUpdate noteA ⟨some "A2", none, none, none, none⟩ 10) := by
  have h := queries_sorted_update_moves_front twoNoteStore "u1" "f" "x" "a"
    ⟨some "A2", none, none, none, none⟩ 10
  exact ⟨h.1, h.2.2.2.2 noteA rfl (by decide)⟩

/-- `updateUserPassword` replaces only the `password` field of user
records with the given id and leaves folders and notes alone. -/
theorem updateUserPassword_frame (st : Store) (id : String) (p : BcryptHash) :
    (updateUserPassword st id p).folders = st.folders ∧
    (updateUserPassword st id p).notes = st.notes ∧
    (∀ v ∈ (updateUserPassword st id p).users, ∃ w ∈ st.users,
      v.id = w.id ∧ v.username = w.username ∧ v.recoveryKey = w.recoveryKey ∧
      v.encryptionKey = w.encryptionKey ∧ v.createdAt = w.createdAt) := by
  unfold updateUserPassword
  cases hfind : mapGet UserRec.id st.users id with
  | none => exact ⟨rfl, rfl, fun v hv => ⟨v, hv, rfl, rfl, rfl, rfl, rfl⟩⟩
  | some user =>
      refine ⟨rfl, rfl, ?_⟩
      intro v hv
      have huser : user ∈ st.users := List.mem_of_find?_eq_some hfind
      have hset : mapSet UserRec.id st.users id { user with password := p }
          = st.users.map (fun x => if x.id == id then { user with password := p } else x) :=
        mapSet_of_found UserRec.id st.users id _ user hfind
      have hv2 : v ∈ mapSet UserRec.id st.users id { user with password := p } := hv
      rw [hset] at hv2
      rcases List.mem_map.mp hv2 with ⟨x, hx, hxv⟩
      by_cases hid : (x.id == id) = true
      · rw [← hxv, if_pos hid]
        exact ⟨user, huser, rfl, rfl, rfl, rfl, rfl⟩
      · rw [← hxv, if_neg hid]
        exact ⟨x, hx, rfl, rfl, rfl, rfl, rfl⟩

/-- C7: recovery with an unknown username or a recovery key differing from
the stored one fails with `InvalidRecovery` and leaves the store
unchanged; only an exact key match replaces the password hash, and even
then every other field of every user record, all folders and all notes
are unchanged. -/
theorem recover_exact_match_only (st : Store) (username rk pw : String) (salt : Nat) :
    ((∀ user, getUserByUsername st.users username = some user → user.recoveryKey ≠ rk) →
        (recover st username rk pw salt).1 = st ∧
        (1 ≤ username.length → 1 ≤ rk.length → 6 ≤ pw.length →
          (recover st username rk pw salt).2 = RecoverResult.invalidRecovery)) ∧
    (∀ user, getUserByUsername st.users username = some user → user.recoveryKey = rk →
        1 ≤ username.length → 1 ≤ rk.length → 6 ≤ pw.length →
        (recover st username rk pw salt).2 = RecoverResult.ok user.id user.encryptionKey ∧
        (recover st username rk pw salt).1
            = updateUserPassword st user.id (bcryptHash salt pw) ∧
        (recover st username rk pw salt).1.folders = st.folders ∧
        (recover st username rk pw salt).1.notes = st.notes ∧
        (∀ v ∈ (recover st username rk pw salt).1.users, ∃ w ∈ st.users,
          v.id = w.id ∧ v.username = w.username ∧ v.recoveryKey = w.recoveryKey ∧
          v.encryptionKey = w.encryptionKey ∧ v.createdAt = w.createdAt)) := by
  constructor
  · intro hne
    constructor
    · have hgoal : (recover st username rk pw salt).1 = st := by
        unfold recover
        split
        · rfl
        · cases hfind : getUserByUsername st.users username with
          | none => rfl
          | some user =>
              have hbeq : (user.recoveryKey == rk) = false :=
                beq_eq_false_iff_ne.mpr (hne user hfind)
              simp [hbeq]
      exact hgoal
    · intro hvu hvk hvp
      have hz1 : username.length ≠ 0 := by omega
      have hz2 : rk.length ≠ 0 := by omega
      have hz3 : ¬(pw.length < 6) := by omega
      cases hfind : getUserByUsername st.users username with
      | none => simp [recover, hz1, hz2, hz3, hfind]
      | some user =>
          have hbeq : (user.recoveryKey == rk) = false :=
            beq_eq_false_iff_ne.mpr (hne user hfind)
          simp [recover, hz1, hz2, hz3, hfind, hbeq]
  · intro user huser hkey hvu hvk hvp
    have hz1 : username.length ≠ 0 := by omega
    have hz2 : rk.length ≠ 0 := by omega
    have hz3 : ¬(pw.length < 6) := by omega
    have hbeq : (user.recoveryKey == rk) = true := beq_iff_eq.mpr hkey
    have hfr := updateUserPassword_frame st user.id (bcryptHash salt pw)
    have hres1 : (recover st username rk pw salt).1
        = updateUserPassword st user.id (bcryptHash salt pw) := by
      simp [recover, hz1, hz2, hz3, huser, hbeq]
    refine ⟨by simp [recover, hz1, hz2, hz3, huser, hbeq], hres1, ?_, ?_, ?_⟩
    · rw [hres1]; exact hfr.1
    · rw [hres1]; exact hfr.2.1
    · rw [hres1]; exact hfr.2.2

/-- Witness for C7: recovering `alice` with a wrong recovery key changes
nothing and reports `InvalidRecovery`. -/
theorem recover_exact_match_only_witness :
    (recover authStore "alice" "wrong" "newpass1" 5).1 = authStore ∧
    (recover authStore "alice" "wrong" "newpass1" 5).2 = RecoverResult.invalidRecovery := by
  have hkey : ∀ user, getUserByUsername authStore.users "alice" = some user →
      user.recoveryKey ≠ "wrong" := by
    intro user huser
    have h2 : getUserByUsername authStore.users "alice" = some aliceRec := rfl
    rw [h2] at huser
    rw [← Option.some.inj huser]
    decide
  have h := (recover_exact_match_only authStore "alice" "wrong" "newpass1" 5).1 hkey
  exact ⟨h.1, h.2 (by decide) (by decide) (by decide)⟩

/-- The empty store (the state of a fresh `MemStorage`). -/
def emptyStore : Store := { users := [], folders := [], notes := [] }

/-- C8: registering an unregistered username with valid (non-empty)
credentials succeeds and returns the fresh recovery and encryption keys,
and an immediately following login with the same credentials succeeds and
returns the same encryption key. -/
theorem register_then_login (st : Store)
    (username password rk ek freshId : String) (salt now : Nat)
    (hvu : 1 ≤ username.length) (hvp : 1 ≤ password.length)
    (hnew : getUserByUsername st.users username = none)
    (hfresh : ∀ v ∈ st.users, v.id ≠ freshId) :
    (register st username password rk ek salt freshId now).2
        = RegisterResult.ok freshId rk ek ∧
    login (register st username password rk ek salt freshId now).1 username password
        = LoginResult.ok freshId ek := by
  constructor
  · unfold register createUser
    rw [hnew]
  · have husers : (register st username password rk ek salt freshId now).1.users
        = st.users ++ [UserRec.mk freshId username (bcryptHash salt password) rk ek now] := by
      have hr : (register st username password rk ek salt freshId now).1.users
          = mapSet UserRec.id st.users freshId
              (UserRec.mk freshId username (bcryptHash salt password) rk ek now) := by
        unfold register createUser
        rw [hnew]
      rw [hr]
      exact mapSet_of_fresh UserRec.id st.users freshId _ hfresh
    have hfind2 : getUserByUsername
        (st.users ++ [UserRec.mk freshId username (bcryptHash salt password) rk ek now])
        username
        = some (UserRec.mk freshId username (bcryptHash salt password) rk ek now) := by
      unfold getUserByUsername
      rw [List.find?_append]
      rw [show List.find? (fun v => v.username == username) st.users = none from hnew]
      simp
    have hz1 : username.length ≠ 0 := by omega
    have hz2 : password.length ≠ 0 := by omega
    simp only [login, husers]
    rw [hfind2]
    simp [bcryptCompare, bcryptHash, hz1, hz2]

/-- Witness for C8: registering `bob` on the empty store, then logging in. -/
theorem register_then_login_witness :
    (register emptyStore "bob" "secret7" "rkb" "ekb" 2 "u7" 1).2
        = RegisterResult.ok "u7" "rkb" "ekb" ∧
    login (register emptyStore "bob" "secret7" "rkb" "ekb" 2 "u7" 1).1 "bob" "secret7"
        = LoginResult.ok "u7" "ekb" :=
  register_then_login emptyStore "bob" "secret7" "rkb" "ekb" "u7" 2 1
    (by decide) (by decide) rfl (by decide)

end NoteKeep
